import Mathlib

/-!
The miniLZO file driver `example.c`.

A shallow embedding of the command-line driver `main` of `example.c` and of the
two sizing macros `OUT_LEN` and `HEAP_ALLOC`, followed by theorems about them.

The driver is sequential code with side effects on the console, on two files and
on the codec library.  Each side effect is recorded, in program order, as an
`Event` of the run's trace; the run's result is the trace together with the
value returned by `main`.

The codec library (`minilzo.h`, `minilzo.c`) is not part of the sources that are
embedded here.  It is a parameter of the model (`Lzo`): the theorems hold for
every codec.
-/

namespace MiniLzo

/-! ## Data model -/

/-- One `unsigned char`. -/
abbrev Byte := Fin 256

/-- What one call of `lzo1x_1_compress` or `lzo1x_decompress` leaves behind:
the returned status `r`, the value it left in `*dst_len` (the variable `out_len`
of `main`) and the bytes it stored into `dst` from offset 0 on. -/
structure CodecResult where
  r : Int
  out_len : Nat
  stored : List Byte
deriving DecidableEq

/-- The library declared by `minilzo.h`, taken as a parameter: the constant
`LZO_E_OK`, the two version strings, the status returned by `lzo_init()`, the
two block operations as functions of the `src_len` bytes at `src`, the constant
`LZO1X_1_MEM_COMPRESS` and `sizeof(lzo_align_t)`. -/
structure Lzo where
  LZO_E_OK : Int
  lzo_version_string : String
  lzo_version_date : String
  lzo_init : Int
  lzo1x_1_compress : List Byte → CodecResult
  lzo1x_decompress : List Byte → CodecResult
  LZO1X_1_MEM_COMPRESS : Nat
  sizeof_lzo_align_t : Nat

/-- The file system as `main` sees it.  `fopen_rb path` is `none` when
`fopen(path,"rb")` returns `NULL`, and otherwise the byte sequence the opened
stream delivers to `fread`.  `fopen_wb path` tells whether `fopen(path,"wb")`
returns a stream. -/
structure FS where
  fopen_rb : String → Option (List Byte)
  fopen_wb : String → Bool

/-- The three command-line arguments `main` dereferences: `argv[1]`, `argv[2]`
and `argv[3]`.  (A command line with fewer arguments makes `main` dereference a
null pointer; such runs have no defined behaviour and are not modelled.) -/
structure Argv where
  arg1 : String
  arg2 : String
  arg3 : String
deriving DecidableEq

/-- The texts `main` prints, one constructor per `printf`/`fprintf` call, with
the values substituted for the conversions. -/
inductive Msg where
  | banner (version date : String)
  | init_failed
  | init_failed_hint
  | unable_to_open (path : String)
  | success_opening (path : String)
  | newline
  | read_bytes (bytes_read : Nat) (path : String)
  | compressed_into (bytes_read out_len : Nat)
  | compression_failed (r : Int)
  | incompressible_data
  | compression_test_passed
  | decompressed_into (bytes_read out_len : Nat)
  | decompression_failed (r : Int)
  | decompression_test_passed
deriving DecidableEq

/-- The side effects of `main`. `fopen path mode ok` records whether the call
returned a stream; `fread count got` records the requested element count and the
returned one; the two codec events carry the `src_len` bytes at `src` the call
was given; `fwrite` carries the bytes written to the destination stream. -/
inductive Event where
  | printf (m : Msg)
  | lzo_init
  | fopen (path mode : String) (ok : Bool)
  | fread (count got : Nat)
  | lzo1x_1_compress (src : List Byte)
  | lzo1x_decompress (src : List Byte)
  | fwrite (bytes : List Byte)
  | fclose_in
  | fclose_out
deriving DecidableEq

/-- A finished run of `main`: its side effects in program order and the value
it returned. -/
structure Run where
  trace : List Event
  exit : Int
deriving DecidableEq

/-! ## Constants and buffers -/

/-- The macro `IN_LEN`: `(246*32768ul)`. -/
def IN_LEN : Nat := 246 * 32768

/-- The macro `OUT_LEN`: `(IN_LEN + IN_LEN / 16 + 64 + 3)`. -/
def OUT_LEN : Nat := IN_LEN + IN_LEN / 16 + 64 + 3

/-- The macro `OUT_LEN` evaluated in unsigned arithmetic of `w` bits: every
operation wraps modulo `2^w`. -/
def OUT_LEN_wrap (w : Nat) : Nat :=
  let in_len := ((246 % 2 ^ w) * (32768 % 2 ^ w)) % 2 ^ w
  (((in_len + in_len / 16) % 2 ^ w + 64) % 2 ^ w + 3) % 2 ^ w

/-- The macro `IN_LEN` evaluated in unsigned arithmetic of `w` bits. -/
def IN_LEN_wrap (w : Nat) : Nat :=
  ((246 % 2 ^ w) * (32768 % 2 ^ w)) % 2 ^ w

/-- The element count of the array declared by `HEAP_ALLOC(var,size)`:
`((size) + (sizeof(lzo_align_t) - 1)) / sizeof(lzo_align_t)`, with
`a = sizeof(lzo_align_t)`.  The expression is evaluated in `size_t`, unsigned
arithmetic of `w` bits: the operands are converted to `size_t` and the
subtraction and the sum wrap modulo `2^w`. -/
def HEAP_ALLOC (w size a : Nat) : Nat :=
  ((size % 2 ^ w + (a % 2 ^ w + (2 ^ w - 1)) % 2 ^ w) % 2 ^ w) / (a % 2 ^ w)

/-- The number of bytes of the array `wrkmem`, declared by
`HEAP_ALLOC(wrkmem, LZO1X_1_MEM_COMPRESS)`, on a platform whose `size_t` has `w`
bits: the element count times the element size. -/
def wrkmem_bytes (w : Nat) (lzo : Lzo) : Nat :=
  HEAP_ALLOC w lzo.LZO1X_1_MEM_COMPRESS lzo.sizeof_lzo_align_t * lzo.sizeof_lzo_align_t

/-- The static array `in`: `IN_LEN` bytes, zero at program start. -/
def in_static : List Byte := List.replicate IN_LEN 0

/-- The static array `out`: `OUT_LEN` bytes, zero at program start. -/
def out_static : List Byte := List.replicate OUT_LEN 0

/-- Storing `data` into a buffer from offset 0 on: the first bytes of the
buffer are replaced, the others stay. -/
def store (buf data : List Byte) : List Byte := data ++ buf.drop data.length

/-- The call `fread(buf,1,count,stream)`: it reads as many bytes as the stream
has, at most `count`, stores them into `buf` and returns their number together
with the buffer. -/
def fread (buf : List Byte) (count : Nat) (stream : List Byte) : Nat × List Byte :=
  let data := stream.take count
  (data.length, store buf data)

/-- The character `argv[1][0]`: the first character of the first argument, the
terminating NUL when the argument is the empty string. -/
def argv1_0 (argv : Argv) : Char := argv.arg1.data.headD (Char.ofNat 0)

/-! ## The program -/

/-- The `case 'c'` arm of the `switch` in `main`, up to the `return` or the
`break` (after which `main` returns 0). -/
def main_case_c (lzo : Lzo) (fs : FS) (argv : Argv) : Run :=
  match fs.fopen_rb argv.arg2 with
  | none =>
    ⟨[.fopen argv.arg2 "rb" false, .printf (.unable_to_open argv.arg2)], 1⟩
  | some fp_in =>
    let t1 : List Event := [.fopen argv.arg2 "rb" true, .printf (.success_opening argv.arg2)]
    if fs.fopen_wb argv.arg3 = false then
      ⟨t1 ++ [.fopen argv.arg3 "wb" false, .printf (.unable_to_open argv.arg3)], 1⟩
    else
      let t2 : List Event :=
        t1 ++ [.fopen argv.arg3 "wb" true, .printf (.success_opening argv.arg3)]
      let in_len := IN_LEN
      let rd := fread in_static in_len fp_in
      let bytes_read := rd.1
      let in_buf := rd.2
      let src := in_buf.take bytes_read
      let res := lzo.lzo1x_1_compress src
      let r := res.r
      let out_len := res.out_len
      let out := store out_static res.stored
      let t3 : List Event := t2 ++ [.fread in_len bytes_read, .lzo1x_1_compress src]
      if r = lzo.LZO_E_OK then
        let t4 : List Event :=
          t3 ++ [.printf .newline, .printf (.read_bytes bytes_read argv.arg2),
                 .printf (.compressed_into bytes_read out_len),
                 .fwrite (out.take out_len), .fclose_in, .fclose_out]
        if out_len ≥ in_len then
          ⟨t4 ++ [.printf .incompressible_data], 0⟩
        else
          ⟨t4 ++ [.printf .compression_test_passed], 0⟩
      else
        ⟨t3 ++ [.printf (.compression_failed r), .fclose_in, .fclose_out], 2⟩

/-- The `case 'd'` arm of the `switch` in `main`, up to the `return` or the
`break` (after which `main` returns 0). -/
def main_case_d (lzo : Lzo) (fs : FS) (argv : Argv) : Run :=
  match fs.fopen_rb argv.arg2 with
  | none =>
    ⟨[.fopen argv.arg2 "rb" false, .printf (.unable_to_open argv.arg2)], 1⟩
  | some fp_in =>
    let t1 : List Event := [.fopen argv.arg2 "rb" true, .printf (.success_opening argv.arg2)]
    if fs.fopen_wb argv.arg3 = false then
      ⟨t1 ++ [.fopen argv.arg3 "wb" false, .printf (.unable_to_open argv.arg3)], 1⟩
    else
      let t2 : List Event :=
        t1 ++ [.fopen argv.arg3 "wb" true, .printf (.success_opening argv.arg3)]
      let in_len := IN_LEN
      let rd := fread in_static in_len fp_in
      let bytes_read := rd.1
      let in_buf := rd.2
      let src := in_buf.take bytes_read
      let res := lzo.lzo1x_decompress src
      let r := res.r
      let out_len := res.out_len
      let out := store out_static res.stored
      let t3 : List Event := t2 ++ [.fread in_len bytes_read, .lzo1x_decompress src]
      if r = lzo.LZO_E_OK then
        ⟨t3 ++ [.printf .newline, .printf (.read_bytes bytes_read argv.arg2),
                .printf (.decompressed_into bytes_read out_len),
                .fwrite (out.take out_len), .fclose_in, .fclose_out,
                .printf .decompression_test_passed], 0⟩
      else
        ⟨t3 ++ [.printf (.decompression_failed r), .fclose_in, .fclose_out], 1⟩

/-- The function `main`.  The guard `argc < 0 && argv == NULL` is never true
(`argc` is not negative) and is left out. -/
def main (lzo : Lzo) (fs : FS) (argv : Argv) : Run :=
  let t0 : List Event :=
    [.printf (.banner lzo.lzo_version_string lzo.lzo_version_date), .lzo_init]
  if lzo.lzo_init ≠ lzo.LZO_E_OK then
    ⟨t0 ++ [.printf .init_failed, .printf .init_failed_hint], 3⟩
  else if argv1_0 argv = 'c' then
    let run := main_case_c lzo fs argv
    ⟨t0 ++ run.trace, run.exit⟩
  else if argv1_0 argv = 'd' then
    let run := main_case_d lzo fs argv
    ⟨t0 ++ run.trace, run.exit⟩
  else
    ⟨t0, 0⟩

/-! ## Observations on a run -/

/-- The bytes the run wrote to the destination stream: the payloads of its
`fwrite` calls, in order. -/
def written : List Event → List Byte
  | [] => []
  | .fwrite bytes :: t => bytes ++ written t
  | _ :: t => written t

/-- The `fwrite` calls of a trace. -/
def fwrites (t : List Event) : List Event :=
  t.filter fun e => match e with
    | .fwrite _ => true
    | _ => false

/-- The compress and decompress calls of a trace. -/
def codecCalls (t : List Event) : List Event :=
  t.filter fun e => match e with
    | .lzo1x_1_compress _ => true
    | .lzo1x_decompress _ => true
    | _ => false

/-- The `fopen` calls of a trace. -/
def fopens (t : List Event) : List Event :=
  t.filter fun e => match e with
    | .fopen _ _ _ => true
    | _ => false

/-- The `fread` calls of a trace. -/
def freads (t : List Event) : List Event :=
  t.filter fun e => match e with
    | .fread _ _ => true
    | _ => false

/-- The first `out_len` bytes of the array `out` after a codec call that started
from the zeroed array. -/
def produced (res : CodecResult) : List Byte :=
  (store out_static res.stored).take res.out_len



/-! ## A small codec and file systems for concrete runs -/

/-- A stand-in codec for concrete runs.  Compression stores the input followed
by the three-byte end-of-stream marker `0x11 0x00 0x00`; decompression strips the
marker and fails with status `-7` (end of stream not found), leaving its input
in the output buffer, when the marker is missing. -/
def lzo_eg : Lzo where
  LZO_E_OK := 0
  lzo_version_string := "2.10"
  lzo_version_date := "Mar 01 2017"
  lzo_init := 0
  lzo1x_1_compress := fun x => ⟨0, x.length + 3, x ++ [17, 0, 0]⟩
  lzo1x_decompress := fun y =>
    if 3 ≤ y.length ∧ y.drop (y.length - 3) = [17, 0, 0] then
      ⟨0, y.length - 3, y.take (y.length - 3)⟩
    else
      ⟨-7, y.length, y⟩
  LZO1X_1_MEM_COMPRESS := 131072
  sizeof_lzo_align_t := 8

/-- The codec `lzo_eg` with a failing `lzo_init()`. -/
def lzo_eg_bad_init : Lzo := { lzo_eg with lzo_init := -1 }

/-- A file system in which every path opens for writing and every path opens
for reading and delivers `content`. -/
def fs_with (content : List Byte) : FS := ⟨fun _ => some content, fun _ => true⟩

/-- A file system in which no file opens. -/
def fs_none : FS := ⟨fun _ => none, fun _ => false⟩

/-- A source of `IN_LEN` zero bytes: it fits the array `in` exactly. -/
def full_block : List Byte := List.replicate IN_LEN 0

/-! ## The codec contract of the round trip -/

/-- Decompression inverts compression on inputs that fit the array `in`:
whenever compressing `x` returns `LZO_E_OK`, decompressing the produced bytes
returns `LZO_E_OK` and produces `x`. -/
def Inverts (lzo : Lzo) : Prop :=
  ∀ x : List Byte, x.length ≤ IN_LEN →
    (lzo.lzo1x_1_compress x).r = lzo.LZO_E_OK →
    (lzo.lzo1x_decompress (produced (lzo.lzo1x_1_compress x))).r = lzo.LZO_E_OK ∧
    produced (lzo.lzo1x_decompress (produced (lzo.lzo1x_1_compress x))) = x

/-- The output bound of compression on inputs that fit the array `in`: a
successful call leaves at most `len + len/16 + 64 + 3` in `out_len`. -/
def ObeysBound (lzo : Lzo) : Prop :=
  ∀ x : List Byte, x.length ≤ IN_LEN →
    (lzo.lzo1x_1_compress x).r = lzo.LZO_E_OK →
    (lzo.lzo1x_1_compress x).out_len ≤ x.length + x.length / 16 + 64 + 3

/-- The result of the codec call `main` makes in mode `'c'` or `'d'` when the
source stream delivers `S`: the call is given the `bytes_read` bytes at `in`,
which are `S.take IN_LEN`. -/
def codec_result (lzo : Lzo) (argv : Argv) (S : List Byte) : CodecResult :=
  if argv1_0 argv = 'c' then lzo.lzo1x_1_compress (S.take IN_LEN)
  else lzo.lzo1x_decompress (S.take IN_LEN)

/-- One of the two files cannot be opened. -/
def OpenFails (fs : FS) (argv : Argv) : Prop :=
  fs.fopen_rb argv.arg2 = none ∨ fs.fopen_wb argv.arg3 = false

/-- The mode is decompress and the status of the decompress call on the bytes
read from the source is not `LZO_E_OK`. -/
def DecompressFails (lzo : Lzo) (fs : FS) (argv : Argv) : Prop :=
  argv1_0 argv = 'd' ∧ ∃ S, fs.fopen_rb argv.arg2 = some S ∧
    (lzo.lzo1x_decompress (S.take IN_LEN)).r ≠ lzo.LZO_E_OK

/-- The mode is compress and the status of the compress call on the bytes read
from the source is not `LZO_E_OK`. -/
def CompressFails (lzo : Lzo) (fs : FS) (argv : Argv) : Prop :=
  argv1_0 argv = 'c' ∧ ∃ S, fs.fopen_rb argv.arg2 = some S ∧
    (lzo.lzo1x_1_compress (S.take IN_LEN)).r ≠ lzo.LZO_E_OK

/-! ## Sizing -/

theorem IN_LEN_eq : IN_LEN = 8060928 := by decide

theorem OUT_LEN_eq : OUT_LEN = 8564803 := by decide

theorem in_static_length : in_static.length = IN_LEN := by
  simp [in_static]

theorem out_static_length : out_static.length = OUT_LEN := by
  simp [out_static]

/-- C5: `OUT_LEN` is `IN_LEN + IN_LEN/16 + 64 + 3` with integer division, that
is 8564803 for `IN_LEN = 246*32768 = 8060928`; evaluating the two macros in
32-bit unsigned arithmetic gives the same values (nothing wraps); and for every
input length `n ≤ IN_LEN` the worst-case output size `n + n/16 + 64 + 3` is at
most `OUT_LEN`, the length of the array `out`. -/
theorem OUT_LEN_covers_worst_case (n : Nat) (h : n ≤ IN_LEN) :
    OUT_LEN = IN_LEN + IN_LEN / 16 + 64 + 3 ∧ IN_LEN = 8060928 ∧ OUT_LEN = 8564803 ∧
    IN_LEN_wrap 32 = IN_LEN ∧ OUT_LEN_wrap 32 = OUT_LEN ∧
    n + n / 16 + 64 + 3 ≤ OUT_LEN ∧ n + n / 16 + 64 + 3 ≤ out_static.length := by
  have h1 : IN_LEN = 8060928 := IN_LEN_eq
  have h2 : OUT_LEN = 8564803 := OUT_LEN_eq
  refine ⟨rfl, h1, h2, by decide, by decide, ?_, ?_⟩
  · omega
  · rw [out_static_length]; omega

/-- C5 at a full input block, `n = IN_LEN = 8060928`. -/
theorem OUT_LEN_covers_worst_case_witness :
    8060928 ≤ IN_LEN ∧ 8060928 + 8060928 / 16 + 64 + 3 ≤ OUT_LEN :=
  ⟨by decide, (OUT_LEN_covers_worst_case 8060928 (by decide)).2.2.2.2.2.1⟩

theorem ceil_units_bounds (size a : Nat) (ha : 1 ≤ a) :
    size ≤ (size + (a - 1)) / a * a ∧ (size + (a - 1)) / a * a < size + a := by
  have hpos : 0 < a := ha
  have hdiv := Nat.div_add_mod (size + (a - 1)) a
  have hmod := Nat.mod_lt (size + (a - 1)) hpos
  have hcomm : a * ((size + (a - 1)) / a) = (size + (a - 1)) / a * a := Nat.mul_comm _ _
  constructor <;> omega

/-- When `a` and `size + (a - 1)` are representable in `w` bits nothing wraps in
`HEAP_ALLOC`: the element count is `(size + (a - 1)) / a`. -/
theorem HEAP_ALLOC_no_wrap (w size a : Nat) (ha : 1 ≤ a) (haw : a < 2 ^ w)
    (h : size + (a - 1) < 2 ^ w) :
    HEAP_ALLOC w size a = (size + (a - 1)) / a := by
  unfold HEAP_ALLOC
  have hp : 0 < 2 ^ w := Nat.pow_pos (by decide)
  have l1 : size < 2 ^ w := by omega
  have l2 : a < 2 ^ w := by omega
  have l3 : a - 1 < 2 ^ w := by omega
  have e1 : a + (2 ^ w - 1) = (a - 1) + 2 ^ w := by omega
  have hs : size % 2 ^ w = size := Nat.mod_eq_of_lt l1
  have hm : a % 2 ^ w = a := Nat.mod_eq_of_lt l2
  have e2 : (a + (2 ^ w - 1)) % 2 ^ w = a - 1 := by
    rw [e1, Nat.add_mod_right, Nat.mod_eq_of_lt l3]
  rw [hs, hm, e2, Nat.mod_eq_of_lt (by omega)]

/-- C10 fails for a size at which the sum wraps: with a 64-bit `size_t`,
`size = 2^64 - 7` and `a = 8` (both representable, `a ≥ 1`), `size + (a - 1)` is
`2^64`, which wraps to 0; the array has 0 elements, so its byte size 0 is smaller
than `size`. -/
theorem HEAP_ALLOC_wraps_at_large_size :
    1 ≤ 8 ∧ 8 < 2 ^ 64 ∧ 18446744073709551609 < 2 ^ 64 ∧
    HEAP_ALLOC 64 18446744073709551609 8 = 0 ∧
    ¬ (18446744073709551609 ≤ HEAP_ALLOC 64 18446744073709551609 8 * 8) := by
  decide

/-- C10, amended: on a platform whose `size_t` has `w` bits, for every `size`
and every `a ≥ 1` such that `a` and `size + (a - 1)` are representable in
`size_t`, the array declared by `HEAP_ALLOC(var,size)` has
`k = (size + a - 1) / a` elements of `a = sizeof(lzo_align_t)` bytes, and its
byte size `k*a` satisfies `size ≤ k*a < size + a` and is a multiple of `a`.  In
particular `wrkmem` is then never smaller than `LZO1X_1_MEM_COMPRESS` and exceeds
it by less than one alignment unit. -/
theorem HEAP_ALLOC_bounds_when_representable (w size a : Nat) (ha : 1 ≤ a)
    (haw : a < 2 ^ w) (hfit : size + (a - 1) < 2 ^ w) :
    HEAP_ALLOC w size a = (size + (a - 1)) / a ∧
    size ≤ HEAP_ALLOC w size a * a ∧ HEAP_ALLOC w size a * a < size + a ∧
    a ∣ HEAP_ALLOC w size a * a ∧
    ∀ lzo : Lzo, lzo.LZO1X_1_MEM_COMPRESS = size → lzo.sizeof_lzo_align_t = a →
      lzo.LZO1X_1_MEM_COMPRESS ≤ wrkmem_bytes w lzo ∧
      wrkmem_bytes w lzo < lzo.LZO1X_1_MEM_COMPRESS + lzo.sizeof_lzo_align_t := by
  have hk := HEAP_ALLOC_no_wrap w size a ha haw hfit
  obtain ⟨h1, h2⟩ := ceil_units_bounds size a ha
  rw [← hk] at h1 h2
  refine ⟨hk, h1, h2, Dvd.intro_left _ rfl, ?_⟩
  intro lzo hs hal
  unfold wrkmem_bytes
  rw [hs, hal]
  exact ⟨h1, h2⟩

/-- C10, amended, at `size = 131072`, `a = 8` and a 64-bit `size_t`, and at the
array `wrkmem` of the codec `lzo_eg`. -/
theorem HEAP_ALLOC_bounds_when_representable_witness :
    1 ≤ 8 ∧ 8 < 2 ^ 64 ∧ 131072 + (8 - 1) < 2 ^ 64 ∧
    131072 ≤ HEAP_ALLOC 64 131072 8 * 8 ∧ HEAP_ALLOC 64 131072 8 * 8 < 131072 + 8 ∧
    8 ∣ HEAP_ALLOC 64 131072 8 * 8 ∧
    lzo_eg.LZO1X_1_MEM_COMPRESS ≤ wrkmem_bytes 64 lzo_eg :=
  ⟨by decide, by decide, by decide,
   (HEAP_ALLOC_bounds_when_representable 64 131072 8 (by decide) (by decide) (by decide)).2.1,
   (HEAP_ALLOC_bounds_when_representable 64 131072 8 (by decide) (by decide)
      (by decide)).2.2.1,
   (HEAP_ALLOC_bounds_when_representable 64 131072 8 (by decide) (by decide)
      (by decide)).2.2.2.1,
   ((HEAP_ALLOC_bounds_when_representable 64 131072 8 (by decide) (by decide)
      (by decide)).2.2.2.2 lzo_eg rfl rfl).1⟩


/-! ## Buffers and `fread` -/

theorem take_store (buf data : List Byte) : (store buf data).take data.length = data := by
  simp [store]

theorem fread_fst (buf : List Byte) (n : Nat) (s : List Byte) :
    (fread buf n s).1 = min n s.length := by
  simp [fread]

theorem fread_take (buf : List Byte) (n : Nat) (s : List Byte) :
    List.take (min n s.length) (fread buf n s).2 = s.take n := by
  have h := take_store buf (s.take n)
  rw [List.length_take] at h
  simpa [fread] using h

theorem take_min_length (n : Nat) (s : List Byte) : s.take (min s.length n) = s.take n := by
  rcases Nat.le_total s.length n with h | h
  · rw [Nat.min_eq_left h, List.take_of_length_le h, List.take_of_length_le (Nat.le_refl _)]
  · rw [Nat.min_eq_right h]

theorem produced_length (res : CodecResult) (h : res.out_len ≤ OUT_LEN) :
    (produced res).length = res.out_len := by
  unfold produced store
  rw [List.length_take, List.length_append, List.length_drop, out_static_length]
  omega

/-! ## The two arms of the `switch`, once both files are open -/

theorem main_case_c_open (lzo : Lzo) (fs : FS) (argv : Argv) (S : List Byte)
    (hin : fs.fopen_rb argv.arg2 = some S) (hout : fs.fopen_wb argv.arg3 = true) :
    main_case_c lzo fs argv =
      if (lzo.lzo1x_1_compress (S.take IN_LEN)).r = lzo.LZO_E_OK then
        if (lzo.lzo1x_1_compress (S.take IN_LEN)).out_len ≥ IN_LEN then
          ⟨[.fopen argv.arg2 "rb" true, .printf (.success_opening argv.arg2),
            .fopen argv.arg3 "wb" true, .printf (.success_opening argv.arg3),
            .fread IN_LEN (min IN_LEN S.length), .lzo1x_1_compress (S.take IN_LEN),
            .printf .newline, .printf (.read_bytes (min IN_LEN S.length) argv.arg2),
            .printf (.compressed_into (min IN_LEN S.length)
              (lzo.lzo1x_1_compress (S.take IN_LEN)).out_len),
            .fwrite (produced (lzo.lzo1x_1_compress (S.take IN_LEN))),
            .fclose_in, .fclose_out, .printf .incompressible_data], 0⟩
        else
          ⟨[.fopen argv.arg2 "rb" true, .printf (.success_opening argv.arg2),
            .fopen argv.arg3 "wb" true, .printf (.success_opening argv.arg3),
            .fread IN_LEN (min IN_LEN S.length), .lzo1x_1_compress (S.take IN_LEN),
            .printf .newline, .printf (.read_bytes (min IN_LEN S.length) argv.arg2),
            .printf (.compressed_into (min IN_LEN S.length)
              (lzo.lzo1x_1_compress (S.take IN_LEN)).out_len),
            .fwrite (produced (lzo.lzo1x_1_compress (S.take IN_LEN))),
            .fclose_in, .fclose_out, .printf .compression_test_passed], 0⟩
      else
        ⟨[.fopen argv.arg2 "rb" true, .printf (.success_opening argv.arg2),
          .fopen argv.arg3 "wb" true, .printf (.success_opening argv.arg3),
          .fread IN_LEN (min IN_LEN S.length), .lzo1x_1_compress (S.take IN_LEN),
          .printf (.compression_failed (lzo.lzo1x_1_compress (S.take IN_LEN)).r),
          .fclose_in, .fclose_out], 2⟩ := by
  unfold main_case_c
  simp only [hin, hout, fread_fst, fread_take, produced]
  simp

theorem main_case_d_open (lzo : Lzo) (fs : FS) (argv : Argv) (S : List Byte)
    (hin : fs.fopen_rb argv.arg2 = some S) (hout : fs.fopen_wb argv.arg3 = true) :
    main_case_d lzo fs argv =
      if (lzo.lzo1x_decompress (S.take IN_LEN)).r = lzo.LZO_E_OK then
        ⟨[.fopen argv.arg2 "rb" true, .printf (.success_opening argv.arg2),
          .fopen argv.arg3 "wb" true, .printf (.success_opening argv.arg3),
          .fread IN_LEN (min IN_LEN S.length), .lzo1x_decompress (S.take IN_LEN),
          .printf .newline, .printf (.read_bytes (min IN_LEN S.length) argv.arg2),
          .printf (.decompressed_into (min IN_LEN S.length)
            (lzo.lzo1x_decompress (S.take IN_LEN)).out_len),
          .fwrite (produced (lzo.lzo1x_decompress (S.take IN_LEN))),
          .fclose_in, .fclose_out, .printf .decompression_test_passed], 0⟩
      else
        ⟨[.fopen argv.arg2 "rb" true, .printf (.success_opening argv.arg2),
          .fopen argv.arg3 "wb" true, .printf (.success_opening argv.arg3),
          .fread IN_LEN (min IN_LEN S.length), .lzo1x_decompress (S.take IN_LEN),
          .printf (.decompression_failed (lzo.lzo1x_decompress (S.take IN_LEN)).r),
          .fclose_in, .fclose_out], 1⟩ := by
  unfold main_case_d
  simp only [hin, hout, fread_fst, fread_take, produced]
  simp

/-! ## Dispatch and initialization -/

theorem main_of_c (lzo : Lzo) (fs : FS) (argv : Argv)
    (hinit : lzo.lzo_init = lzo.LZO_E_OK) (hc : argv1_0 argv = 'c') :
    main lzo fs argv =
      ⟨[.printf (.banner lzo.lzo_version_string lzo.lzo_version_date), .lzo_init] ++
        (main_case_c lzo fs argv).trace, (main_case_c lzo fs argv).exit⟩ := by
  simp [main, hinit, hc]

theorem main_of_d (lzo : Lzo) (fs : FS) (argv : Argv)
    (hinit : lzo.lzo_init = lzo.LZO_E_OK) (hd : argv1_0 argv = 'd') :
    main lzo fs argv =
      ⟨[.printf (.banner lzo.lzo_version_string lzo.lzo_version_date), .lzo_init] ++
        (main_case_d lzo fs argv).trace, (main_case_d lzo fs argv).exit⟩ := by
  simp [main, hinit, hd]

theorem main_of_init_failure (lzo : Lzo) (fs : FS) (argv : Argv)
    (hinit : lzo.lzo_init ≠ lzo.LZO_E_OK) :
    main lzo fs argv =
      ⟨[.printf (.banner lzo.lzo_version_string lzo.lzo_version_date), .lzo_init,
        .printf .init_failed, .printf .init_failed_hint], 3⟩ := by
  simp [main, hinit]

/-- C8: when `lzo_init()` succeeds and `argv[1][0]` is neither `'c'` nor `'d'`,
`main` prints its banner, calls `lzo_init` and does nothing else: it opens no
file, calls neither compress nor decompress, writes nothing, and returns 0. -/
theorem other_argument_noop (lzo : Lzo) (fs : FS) (argv : Argv)
    (hinit : lzo.lzo_init = lzo.LZO_E_OK)
    (hc : argv1_0 argv ≠ 'c') (hd : argv1_0 argv ≠ 'd') :
    (main lzo fs argv).trace =
      [.printf (.banner lzo.lzo_version_string lzo.lzo_version_date), .lzo_init] ∧
    fopens (main lzo fs argv).trace = [] ∧
    codecCalls (main lzo fs argv).trace = [] ∧
    fwrites (main lzo fs argv).trace = [] ∧
    written (main lzo fs argv).trace = [] ∧
    (main lzo fs argv).exit = 0 := by
  simp [main, hinit, hc, hd, fopens, codecCalls, fwrites, written]

/-- C8 at the first arguments `"x"` and `""`. -/
theorem other_argument_noop_witness :
    argv1_0 ⟨"x", "in.bin", "out.bin"⟩ ≠ 'c' ∧ argv1_0 ⟨"", "in.bin", "out.bin"⟩ ≠ 'd' ∧
    (main lzo_eg (fs_with [1, 2, 3]) ⟨"x", "in.bin", "out.bin"⟩).exit = 0 ∧
    fopens (main lzo_eg (fs_with [1, 2, 3]) ⟨"", "in.bin", "out.bin"⟩).trace = [] :=
  ⟨by decide, by decide,
   (other_argument_noop lzo_eg (fs_with [1, 2, 3]) ⟨"x", "in.bin", "out.bin"⟩
      (by decide) (by decide) (by decide)).2.2.2.2.2,
   (other_argument_noop lzo_eg (fs_with [1, 2, 3]) ⟨"", "in.bin", "out.bin"⟩
      (by decide) (by decide) (by decide)).2.1⟩

theorem case_c_shape (lzo : Lzo) (fs : FS) (argv : Argv) :
    Event.lzo_init ∉ (main_case_c lzo fs argv).trace ∧
    (codecCalls (main_case_c lzo fs argv).trace).length ≤ 1 := by
  unfold main_case_c
  cases hin : fs.fopen_rb argv.arg2 with
  | none => simp [codecCalls]
  | some S =>
    cases hout : fs.fopen_wb argv.arg3 with
    | false => simp [codecCalls]
    | true =>
      simp only [Bool.true_eq_false, if_false]
      split_ifs <;> simp [codecCalls]

theorem case_d_shape (lzo : Lzo) (fs : FS) (argv : Argv) :
    Event.lzo_init ∉ (main_case_d lzo fs argv).trace ∧
    (codecCalls (main_case_d lzo fs argv).trace).length ≤ 1 := by
  unfold main_case_d
  cases hin : fs.fopen_rb argv.arg2 with
  | none => simp [codecCalls]
  | some S =>
    cases hout : fs.fopen_wb argv.arg3 with
    | false => simp [codecCalls]
    | true =>
      simp only [Bool.true_eq_false, if_false]
      split_ifs <;> simp [codecCalls]

theorem main_trace_shape (lzo : Lzo) (fs : FS) (argv : Argv) :
    ∃ post, (main lzo fs argv).trace =
        [.printf (.banner lzo.lzo_version_string lzo.lzo_version_date)] ++ .lzo_init :: post ∧
      Event.lzo_init ∉ post ∧ (codecCalls post).length ≤ 1 ∧
      (lzo.lzo_init ≠ lzo.LZO_E_OK → codecCalls post = [] ∧ fopens post = []) := by
  unfold main
  by_cases hinit : lzo.lzo_init = lzo.LZO_E_OK
  · by_cases hc : argv1_0 argv = 'c'
    · refine ⟨(main_case_c lzo fs argv).trace, ?_, (case_c_shape lzo fs argv).1,
        (case_c_shape lzo fs argv).2, fun h => absurd hinit h⟩
      simp [hinit, hc]
    · by_cases hd : argv1_0 argv = 'd'
      · refine ⟨(main_case_d lzo fs argv).trace, ?_, (case_d_shape lzo fs argv).1,
          (case_d_shape lzo fs argv).2, fun h => absurd hinit h⟩
        simp [hinit, hc, hd]
      · exact ⟨[], by simp [hinit, hc, hd], by simp, by simp [codecCalls],
          fun h => absurd hinit h⟩
  · exact ⟨[.printf .init_failed, .printf .init_failed_hint], by simp [hinit], by simp,
      by simp [codecCalls], fun _ => by simp [codecCalls, fopens]⟩

/-- C9: on every run `lzo_init` is called exactly once, and no file is opened
and no compress or decompress call is made before it; when it fails no
compress or decompress call is made (and no file is opened); every run makes at
most one compress-or-decompress call, and exactly one when `lzo_init` succeeds,
the mode is `'c'` or `'d'` and both files open. -/
theorem init_once_before_codec (lzo : Lzo) (fs : FS) (argv : Argv) :
    (main lzo fs argv).trace.count .lzo_init = 1 ∧
    (∃ pre post, (main lzo fs argv).trace = pre ++ .lzo_init :: post ∧
      Event.lzo_init ∉ pre ∧ Event.lzo_init ∉ post ∧
      fopens pre = [] ∧ codecCalls pre = []) ∧
    (lzo.lzo_init ≠ lzo.LZO_E_OK →
      codecCalls (main lzo fs argv).trace = [] ∧ fopens (main lzo fs argv).trace = []) ∧
    (codecCalls (main lzo fs argv).trace).length ≤ 1 ∧
    (lzo.lzo_init = lzo.LZO_E_OK → (argv1_0 argv = 'c' ∨ argv1_0 argv = 'd') →
      (fs.fopen_rb argv.arg2).isSome = true → fs.fopen_wb argv.arg3 = true →
      (codecCalls (main lzo fs argv).trace).length = 1) := by
  obtain ⟨post, hshape, hpost, hcalls, hfail⟩ := main_trace_shape lzo fs argv
  refine ⟨?_, ⟨_, post, hshape, by simp, hpost, by simp [fopens], by simp [codecCalls]⟩,
    ?_, ?_, ?_⟩
  · rw [hshape]
    simp [List.count_cons, List.count_eq_zero_of_not_mem hpost]
  · intro h
    rw [hshape]
    have := hfail h
    simp [codecCalls, fopens] at this ⊢
    exact this
  · rw [hshape]
    simpa [codecCalls] using hcalls
  · intro hinit hmode hin hout
    obtain ⟨S, hS⟩ := Option.isSome_iff_exists.mp hin
    rcases hmode with hc | hd
    · rw [main_of_c lzo fs argv hinit hc, main_case_c_open lzo fs argv S hS hout]
      split_ifs <;> simp [codecCalls]
    · rw [main_of_d lzo fs argv hinit hd, main_case_d_open lzo fs argv S hS hout]
      split_ifs <;> simp [codecCalls]

/-- C9 at a run whose `lzo_init` fails and at a compress run with both files
open. -/
theorem init_once_before_codec_witness :
    (codecCalls (main lzo_eg_bad_init (fs_with [1, 2, 3]) ⟨"c", "a", "b"⟩).trace = [] ∧
      fopens (main lzo_eg_bad_init (fs_with [1, 2, 3]) ⟨"c", "a", "b"⟩).trace = []) ∧
    (codecCalls (main lzo_eg (fs_with [1, 2, 3]) ⟨"c", "a", "b"⟩).trace).length = 1 :=
  ⟨(init_once_before_codec lzo_eg_bad_init (fs_with [1, 2, 3]) ⟨"c", "a", "b"⟩).2.2.1
      (by decide),
   (init_once_before_codec lzo_eg (fs_with [1, 2, 3]) ⟨"c", "a", "b"⟩).2.2.2.2
      (by decide) (Or.inl (by decide)) (by decide) (by decide)⟩

/-! ## Reading, the codec call and writing -/

/-- C6: in both modes, when the source stream delivers `S`, `fread` returns
`bytes_read = min(len S, IN_LEN)` (0 for an empty source, `IN_LEN` for a source
longer than `IN_LEN`) and the one codec call is given exactly the first
`bytes_read` bytes of `S`: its input length is `bytes_read`. -/
theorem codec_input_is_bytes_read (lzo : Lzo) (fs : FS) (argv : Argv) (S : List Byte)
    (hinit : lzo.lzo_init = lzo.LZO_E_OK)
    (hmode : argv1_0 argv = 'c' ∨ argv1_0 argv = 'd')
    (hin : fs.fopen_rb argv.arg2 = some S) (hout : fs.fopen_wb argv.arg3 = true) :
    freads (main lzo fs argv).trace = [.fread IN_LEN (min S.length IN_LEN)] ∧
    codecCalls (main lzo fs argv).trace =
      [if argv1_0 argv = 'c' then .lzo1x_1_compress (S.take (min S.length IN_LEN))
       else .lzo1x_decompress (S.take (min S.length IN_LEN))] ∧
    (S.take (min S.length IN_LEN)).length = min S.length IN_LEN ∧
    (S = [] → min S.length IN_LEN = 0) ∧
    (IN_LEN < S.length → min S.length IN_LEN = IN_LEN) ∧
    (S.length ≤ IN_LEN → S.take (min S.length IN_LEN) = S) := by
  have hmin : min S.length IN_LEN = min IN_LEN S.length := Nat.min_comm _ _
  refine ⟨?_, ?_, ?_, ?_, ?_, ?_⟩
  · rcases hmode with hc | hd
    · rw [main_of_c lzo fs argv hinit hc, main_case_c_open lzo fs argv S hin hout, hmin]
      split_ifs <;> simp [freads]
    · rw [main_of_d lzo fs argv hinit hd, main_case_d_open lzo fs argv S hin hout, hmin]
      split_ifs <;> simp [freads]
  · rw [take_min_length]
    rcases hmode with hc | hd
    · rw [main_of_c lzo fs argv hinit hc, main_case_c_open lzo fs argv S hin hout]
      split_ifs <;> simp [codecCalls, hc]
    · have hc : argv1_0 argv ≠ 'c' := by rw [hd]; decide
      rw [if_neg hc, main_of_d lzo fs argv hinit hd, main_case_d_open lzo fs argv S hin hout]
      split_ifs <;> simp [codecCalls]
  · rw [List.length_take]
    omega
  · intro h
    simp [h]
  · intro h
    exact Nat.min_eq_right (Nat.le_of_lt h)
  · intro h
    rw [Nat.min_eq_left h]
    exact List.take_of_length_le (Nat.le_refl _)

/-- C6 at a three-byte source in mode `'d'`, an empty source in mode `'c'` and
a source of `IN_LEN` bytes. -/
theorem codec_input_is_bytes_read_witness :
    freads (main lzo_eg (fs_with [7, 8, 9]) ⟨"d", "a", "b"⟩).trace = [.fread IN_LEN 3] ∧
    codecCalls (main lzo_eg (fs_with []) ⟨"c", "a", "b"⟩).trace = [.lzo1x_1_compress []] ∧
    min full_block.length IN_LEN = IN_LEN :=
  ⟨(codec_input_is_bytes_read lzo_eg (fs_with [7, 8, 9]) ⟨"d", "a", "b"⟩ [7, 8, 9]
      (by decide) (Or.inr (by decide)) rfl rfl).1,
   (codec_input_is_bytes_read lzo_eg (fs_with []) ⟨"c", "a", "b"⟩ []
      (by decide) (Or.inl (by decide)) rfl rfl).2.1,
   by simp [full_block]⟩

/-- C7: in both modes, when the codec call returns `LZO_E_OK` with produced
length `L = out_len`, the run makes one `fwrite` and the bytes written are the
first `L` bytes of the array `out` as the call left it (exactly `L` bytes when
`L ≤ OUT_LEN`), whatever `L` is: also when a compress run is reported as
incompressible. -/
theorem written_is_leading_output (lzo : Lzo) (fs : FS) (argv : Argv) (S : List Byte)
    (hinit : lzo.lzo_init = lzo.LZO_E_OK)
    (hmode : argv1_0 argv = 'c' ∨ argv1_0 argv = 'd')
    (hin : fs.fopen_rb argv.arg2 = some S) (hout : fs.fopen_wb argv.arg3 = true)
    (hok : (codec_result lzo argv S).r = lzo.LZO_E_OK) :
    fwrites (main lzo fs argv).trace =
      [.fwrite ((store out_static (codec_result lzo argv S).stored).take
        (codec_result lzo argv S).out_len)] ∧
    written (main lzo fs argv).trace =
      (store out_static (codec_result lzo argv S).stored).take
        (codec_result lzo argv S).out_len ∧
    ((codec_result lzo argv S).out_len ≤ OUT_LEN →
      (written (main lzo fs argv).trace).length = (codec_result lzo argv S).out_len) := by
  have key : fwrites (main lzo fs argv).trace = [.fwrite (produced (codec_result lzo argv S))] ∧
      written (main lzo fs argv).trace = produced (codec_result lzo argv S) := by
    rcases hmode with hc | hd
    · have hres : codec_result lzo argv S = lzo.lzo1x_1_compress (S.take IN_LEN) := by
        simp [codec_result, hc]
      rw [hres] at hok ⊢
      rw [main_of_c lzo fs argv hinit hc, main_case_c_open lzo fs argv S hin hout]
      split_ifs <;> simp [fwrites, written]
    · have hres : codec_result lzo argv S = lzo.lzo1x_decompress (S.take IN_LEN) := by
        simp [codec_result, hd]
      rw [hres] at hok ⊢
      rw [main_of_d lzo fs argv hinit hd, main_case_d_open lzo fs argv S hin hout]
      simp [hok, fwrites, written]
  refine ⟨key.1, key.2, ?_⟩
  intro hle
  rw [key.2]
  exact produced_length _ hle

/-- C4: in decompress mode, when the codec call returns a status other than
`LZO_E_OK`, the run makes no `fwrite` (zero bytes reach the destination), returns
1, prints the failure message and never the success message, whatever the codec
left in `out_len` and in the array `out`. -/
theorem decompress_failure_writes_nothing (lzo : Lzo) (fs : FS) (argv : Argv) (S : List Byte)
    (hinit : lzo.lzo_init = lzo.LZO_E_OK) (hd : argv1_0 argv = 'd')
    (hin : fs.fopen_rb argv.arg2 = some S) (hout : fs.fopen_wb argv.arg3 = true)
    (hbad : (lzo.lzo1x_decompress (S.take IN_LEN)).r ≠ lzo.LZO_E_OK) :
    fwrites (main lzo fs argv).trace = [] ∧
    written (main lzo fs argv).trace = [] ∧
    (main lzo fs argv).exit = 1 ∧
    Event.printf .decompression_test_passed ∉ (main lzo fs argv).trace ∧
    Event.printf (.decompression_failed (lzo.lzo1x_decompress (S.take IN_LEN)).r) ∈
      (main lzo fs argv).trace := by
  rw [main_of_d lzo fs argv hinit hd, main_case_d_open lzo fs argv S hin hout]
  simp [hbad, fwrites, written]

/-- C7 at a compress run on a three-byte source. -/
theorem written_is_leading_output_witness :
    (codec_result lzo_eg ⟨"c", "a", "b"⟩ [7, 8, 9]).r = lzo_eg.LZO_E_OK ∧
    (codec_result lzo_eg ⟨"c", "a", "b"⟩ [7, 8, 9]).out_len ≤ OUT_LEN ∧
    (written (main lzo_eg (fs_with [7, 8, 9]) ⟨"c", "a", "b"⟩).trace).length =
      (codec_result lzo_eg ⟨"c", "a", "b"⟩ [7, 8, 9]).out_len :=
  ⟨by decide, by decide,
   (written_is_leading_output lzo_eg (fs_with [7, 8, 9]) ⟨"c", "a", "b"⟩ [7, 8, 9]
      (by decide) (Or.inl (by decide)) rfl rfl (by decide)).2.2 (by decide)⟩

/-- C4 at a source without end-of-stream marker: the codec fails with status
`-7`, leaving `out_len = 3` and three bytes in `out`; nothing is written. -/
theorem decompress_failure_writes_nothing_witness :
    lzo_eg.lzo1x_decompress (List.take IN_LEN [7, 8, 9]) = ⟨-7, 3, [7, 8, 9]⟩ ∧
    written (main lzo_eg (fs_with [7, 8, 9]) ⟨"d", "a", "b"⟩).trace = [] ∧
    (main lzo_eg (fs_with [7, 8, 9]) ⟨"d", "a", "b"⟩).exit = 1 :=
  ⟨by decide,
   (decompress_failure_writes_nothing lzo_eg (fs_with [7, 8, 9]) ⟨"d", "a", "b"⟩ [7, 8, 9]
      (by decide) (by decide) rfl rfl (by decide)).2.1,
   (decompress_failure_writes_nothing lzo_eg (fs_with [7, 8, 9]) ⟨"d", "a", "b"⟩ [7, 8, 9]
      (by decide) (by decide) rfl rfl (by decide)).2.2.1⟩

/-! ## Exit codes -/

/-- C3: for every run whose first argument begins with `'c'` or `'d'`, `main`
returns 3 exactly when `lzo_init` fails; otherwise 1 exactly when the input or
the output file cannot be opened or the mode is decompress and the codec status
is not OK; otherwise 2 exactly when the mode is compress and the codec status
is not OK; otherwise 0, which is also what a run reported as incompressible
returns.  No other value is returned. -/
theorem exit_code (lzo : Lzo) (fs : FS) (argv : Argv)
    (hmode : argv1_0 argv = 'c' ∨ argv1_0 argv = 'd') :
    ((main lzo fs argv).exit = 3 ↔ lzo.lzo_init ≠ lzo.LZO_E_OK) ∧
    (lzo.lzo_init = lzo.LZO_E_OK →
      ((main lzo fs argv).exit = 1 ↔ OpenFails fs argv ∨ DecompressFails lzo fs argv)) ∧
    (lzo.lzo_init = lzo.LZO_E_OK → ¬(OpenFails fs argv ∨ DecompressFails lzo fs argv) →
      ((main lzo fs argv).exit = 2 ↔ CompressFails lzo fs argv)) ∧
    (lzo.lzo_init = lzo.LZO_E_OK → ¬(OpenFails fs argv ∨ DecompressFails lzo fs argv) →
      ¬CompressFails lzo fs argv → (main lzo fs argv).exit = 0) ∧
    (Event.printf .incompressible_data ∈ (main lzo fs argv).trace →
      (main lzo fs argv).exit = 0) ∧
    ((main lzo fs argv).exit = 0 ∨ (main lzo fs argv).exit = 1 ∨
      (main lzo fs argv).exit = 2 ∨ (main lzo fs argv).exit = 3) := by
  unfold OpenFails DecompressFails CompressFails
  by_cases hinit : lzo.lzo_init = lzo.LZO_E_OK
  · rcases hmode with hc | hd
    · have hcd : argv1_0 argv ≠ 'd' := by rw [hc]; decide
      rw [main_of_c lzo fs argv hinit hc]
      cases hin : fs.fopen_rb argv.arg2 with
      | none => simp [hinit, main_case_c, hin]
      | some S =>
        cases hout : fs.fopen_wb argv.arg3 with
        | false => simp [hinit, main_case_c, hin, hout]
        | true =>
          rw [main_case_c_open lzo fs argv S hin hout]
          by_cases hr : (lzo.lzo1x_1_compress (S.take IN_LEN)).r = lzo.LZO_E_OK
          · split_ifs <;> simp [hinit, hc, hr]
          · simp [hinit, hc, hr]
    · have hdc : argv1_0 argv ≠ 'c' := by rw [hd]; decide
      rw [main_of_d lzo fs argv hinit hd]
      cases hin : fs.fopen_rb argv.arg2 with
      | none => simp [hinit, main_case_d, hin]
      | some S =>
        cases hout : fs.fopen_wb argv.arg3 with
        | false => simp [hinit, main_case_d, hin, hout]
        | true =>
          rw [main_case_d_open lzo fs argv S hin hout]
          by_cases hr : (lzo.lzo1x_decompress (S.take IN_LEN)).r = lzo.LZO_E_OK
          · simp [hinit, hd, hr]
          · simp [hinit, hd, hr]
  · rw [main_of_init_failure lzo fs argv hinit]
    simp [hinit]

/-- C3 at a compress run whose files do not open (exit code 1) and at a run
whose `lzo_init` fails (exit code 3). -/
theorem exit_code_witness :
    (argv1_0 ⟨"c", "a", "b"⟩ = 'c' ∨ argv1_0 ⟨"c", "a", "b"⟩ = 'd') ∧
    (main lzo_eg fs_none ⟨"c", "a", "b"⟩).exit = 1 ∧
    (main lzo_eg_bad_init fs_none ⟨"c", "a", "b"⟩).exit = 3 :=
  ⟨Or.inl (by decide),
   ((exit_code lzo_eg fs_none ⟨"c", "a", "b"⟩ (Or.inl (by decide))).2.1 (by decide)).mpr
      (Or.inl (Or.inl rfl)),
   (exit_code lzo_eg_bad_init fs_none ⟨"c", "a", "b"⟩ (Or.inl (by decide))).1.mpr
      (by decide)⟩

/-! ## The incompressible-data report -/

/-- What the test after a successful compress call does: `out_len` is compared
with `in_len`, which still holds `IN_LEN`, not with `bytes_read`.  The run is
reported as incompressible exactly when `out_len ≥ IN_LEN`. -/
theorem incompressible_report_compares_capacity (lzo : Lzo) (fs : FS) (argv : Argv)
    (S : List Byte) (hinit : lzo.lzo_init = lzo.LZO_E_OK) (hc : argv1_0 argv = 'c')
    (hin : fs.fopen_rb argv.arg2 = some S) (hout : fs.fopen_wb argv.arg3 = true)
    (hok : (lzo.lzo1x_1_compress (S.take IN_LEN)).r = lzo.LZO_E_OK) :
    (Event.printf .incompressible_data ∈ (main lzo fs argv).trace ↔
      IN_LEN ≤ (lzo.lzo1x_1_compress (S.take IN_LEN)).out_len) ∧
    (Event.printf .compression_test_passed ∈ (main lzo fs argv).trace ↔
      (lzo.lzo1x_1_compress (S.take IN_LEN)).out_len < IN_LEN) ∧
    (main lzo fs argv).exit = 0 := by
  rw [main_of_c lzo fs argv hinit hc, main_case_c_open lzo fs argv S hin hout]
  by_cases h : IN_LEN ≤ (lzo.lzo1x_1_compress (S.take IN_LEN)).out_len
  · simp [hok, h]
  · simp [hok, h]
    omega

/-- C1, evaluated on an empty source: `fread` returns `bytes_read = 0`, the
codec returns `LZO_E_OK` with `out_len = 3 ≥ bytes_read`, and `main` does not print
the incompressible-data report but the test-passed message. -/
theorem empty_input_reported_passed :
    lzo_eg.lzo_init = lzo_eg.LZO_E_OK ∧
    lzo_eg.lzo1x_1_compress (List.take IN_LEN []) = ⟨lzo_eg.LZO_E_OK, 3, [17, 0, 0]⟩ ∧
    Event.fread IN_LEN 0 ∈ (main lzo_eg (fs_with []) ⟨"c", "empty.bin", "out.lzo"⟩).trace ∧
    Event.fwrite [17, 0, 0] ∈ (main lzo_eg (fs_with []) ⟨"c", "empty.bin", "out.lzo"⟩).trace ∧
    Event.printf .incompressible_data ∉
      (main lzo_eg (fs_with []) ⟨"c", "empty.bin", "out.lzo"⟩).trace ∧
    Event.printf .compression_test_passed ∈
      (main lzo_eg (fs_with []) ⟨"c", "empty.bin", "out.lzo"⟩).trace ∧
    (main lzo_eg (fs_with []) ⟨"c", "empty.bin", "out.lzo"⟩).exit = 0 := by
  decide

/-! ## Round trip through the two modes -/

theorem full_block_length : full_block.length = IN_LEN := by
  simp [full_block]

theorem lzo_eg_produced_compress (x : List Byte) :
    produced (lzo_eg.lzo1x_1_compress x) = x ++ [17, 0, 0] := by
  have h := take_store out_static (x ++ [17, 0, 0])
  simpa [produced, lzo_eg] using h

theorem lzo_eg_decompress_marked (x : List Byte) :
    lzo_eg.lzo1x_decompress (x ++ [17, 0, 0]) = ⟨0, x.length, x⟩ := by
  simp [lzo_eg]

theorem lzo_eg_inverts_all (x : List Byte) :
    (lzo_eg.lzo1x_1_compress x).r = lzo_eg.LZO_E_OK ∧
    (lzo_eg.lzo1x_decompress (produced (lzo_eg.lzo1x_1_compress x))).r = lzo_eg.LZO_E_OK ∧
    produced (lzo_eg.lzo1x_decompress (produced (lzo_eg.lzo1x_1_compress x))) = x := by
  rw [lzo_eg_produced_compress, lzo_eg_decompress_marked]
  refine ⟨rfl, rfl, ?_⟩
  exact take_store out_static x

theorem lzo_eg_bound_all (x : List Byte) :
    (lzo_eg.lzo1x_1_compress x).out_len ≤ x.length + x.length / 16 + 64 + 3 := by
  show x.length + 3 ≤ x.length + x.length / 16 + 64 + 3
  omega

theorem lzo_eg_decompress_full_block :
    (lzo_eg.lzo1x_decompress full_block).r ≠ lzo_eg.LZO_E_OK := by
  have h3 : IN_LEN - (IN_LEN - 3) = 3 := by decide
  have hd : List.drop (full_block.length - 3) full_block ≠ [17, 0, 0] := by
    rw [full_block_length]
    unfold full_block
    rw [List.drop_replicate, h3]
    decide
  simp [lzo_eg, hd]

theorem lzo_eg_inverts : Inverts lzo_eg := fun x _ _ =>
  ⟨(lzo_eg_inverts_all x).2.1, (lzo_eg_inverts_all x).2.2⟩

theorem lzo_eg_obeys_bound : ObeysBound lzo_eg := fun x _ _ => lzo_eg_bound_all x

theorem lzo_eg_compress_ok (x : List Byte) :
    (lzo_eg.lzo1x_1_compress x).r = lzo_eg.LZO_E_OK := rfl

theorem lzo_eg_compress_out_len (x : List Byte) :
    (lzo_eg.lzo1x_1_compress x).out_len = x.length + 3 := rfl

theorem written_compress_full (B : List Byte) (hB : B.length = IN_LEN) (argv : Argv)
    (hc : argv1_0 argv = 'c') :
    written (main lzo_eg (fs_with B) argv).trace = B ++ [17, 0, 0] ∧
    Event.printf .incompressible_data ∈ (main lzo_eg (fs_with B) argv).trace ∧
    (main lzo_eg (fs_with B) argv).exit = 0 := by
  have htake : B.take IN_LEN = B := List.take_of_length_le (Nat.le_of_eq hB)
  have hlen : (lzo_eg.lzo1x_1_compress B).out_len ≥ IN_LEN := by
    rw [lzo_eg_compress_out_len, hB]
    exact Nat.le_add_right _ _
  rw [main_of_c lzo_eg (fs_with B) argv rfl hc,
    main_case_c_open lzo_eg (fs_with B) argv B rfl rfl, htake,
    if_pos (lzo_eg_compress_ok B), if_pos hlen, lzo_eg_produced_compress]
  simp [written]

theorem written_decompress_truncated (B : List Byte) (hB : B.length = IN_LEN)
    (hbad : (lzo_eg.lzo1x_decompress B).r ≠ lzo_eg.LZO_E_OK) (argv : Argv)
    (hd : argv1_0 argv = 'd') :
    written (main lzo_eg (fs_with (B ++ [17, 0, 0])) argv).trace = [] ∧
    (main lzo_eg (fs_with (B ++ [17, 0, 0])) argv).exit = 1 := by
  have htake : (B ++ [17, 0, 0]).take IN_LEN = B := List.take_left' hB
  rw [main_of_d lzo_eg (fs_with (B ++ [17, 0, 0])) argv rfl hd,
    main_case_d_open lzo_eg (fs_with (B ++ [17, 0, 0])) argv (B ++ [17, 0, 0]) rfl rfl,
    htake, if_neg hbad]
  simp [written]

theorem full_block_ne_nil : full_block ≠ [] := by
  intro h
  have hl := full_block_length
  rw [h] at hl
  exact absurd hl (by decide)

/-- C2 fails on a source of `IN_LEN` zero bytes with the codec `lzo_eg`, which
inverts its compression and obeys the output bound (on the inputs that fit the
array `in`, and on every other input as well): the compress run is
reported as incompressible and writes `IN_LEN + 3` bytes; the decompress run
reads only the first `IN_LEN` of them, the codec call fails, nothing is written
and `main` returns 1. -/
theorem full_block_round_trip_fails :
    full_block.length ≤ IN_LEN ∧ lzo_eg.lzo_init = lzo_eg.LZO_E_OK ∧
    Inverts lzo_eg ∧ ObeysBound lzo_eg ∧
    (∀ x : List Byte,
      (lzo_eg.lzo1x_1_compress x).r = lzo_eg.LZO_E_OK ∧
      (lzo_eg.lzo1x_decompress (produced (lzo_eg.lzo1x_1_compress x))).r = lzo_eg.LZO_E_OK ∧
      produced (lzo_eg.lzo1x_decompress (produced (lzo_eg.lzo1x_1_compress x))) = x ∧
      (lzo_eg.lzo1x_1_compress x).out_len ≤ x.length + x.length / 16 + 64 + 3) ∧
    Event.printf .incompressible_data ∈
      (main lzo_eg (fs_with full_block) ⟨"c", "B.bin", "B.lzo"⟩).trace ∧
    (main lzo_eg (fs_with full_block) ⟨"c", "B.bin", "B.lzo"⟩).exit = 0 ∧
    written (main lzo_eg
      (fs_with (written (main lzo_eg (fs_with full_block) ⟨"c", "B.bin", "B.lzo"⟩).trace))
      ⟨"d", "B.lzo", "B.out"⟩).trace ≠ full_block ∧
    (main lzo_eg
      (fs_with (written (main lzo_eg (fs_with full_block) ⟨"c", "B.bin", "B.lzo"⟩).trace))
      ⟨"d", "B.lzo", "B.out"⟩).exit = 1 := by
  have h1 := written_compress_full full_block full_block_length ⟨"c", "B.bin", "B.lzo"⟩
    (by decide)
  have h2 := written_decompress_truncated full_block full_block_length
    lzo_eg_decompress_full_block ⟨"d", "B.lzo", "B.out"⟩ (by decide)
  refine ⟨Nat.le_of_eq full_block_length, rfl, lzo_eg_inverts, lzo_eg_obeys_bound,
    fun x => ⟨(lzo_eg_inverts_all x).1, (lzo_eg_inverts_all x).2.1,
      (lzo_eg_inverts_all x).2.2, lzo_eg_bound_all x⟩,
    h1.2.1, h1.2.2, ?_, ?_⟩
  · rw [h1.1, h2.1]
    exact fun h => full_block_ne_nil h.symm
  · rw [h1.1]
    exact h2.2

/-- C2, amended: for every `B` with `len B ≤ IN_LEN` and every codec whose
decompress inverts its compress and whose compress output obeys the
`len + len/16 + 64 + 3` bound, if the compress run on `B` (reported as passed or
as incompressible) wrote at most `IN_LEN` bytes, then the decompress run on the
bytes it wrote writes exactly `B` and returns 0. -/
theorem round_trip_when_stream_fits (lzo : Lzo) (fs1 fs2 : FS) (argv1 argv2 : Argv) (B : List Byte)
    (hlen : B.length ≤ IN_LEN) (hinv : Inverts lzo) (_hbound : ObeysBound lzo)
    (hc : argv1_0 argv1 = 'c')
    (hin1 : fs1.fopen_rb argv1.arg2 = some B) (hout1 : fs1.fopen_wb argv1.arg3 = true)
    (hverdict : Event.printf .compression_test_passed ∈ (main lzo fs1 argv1).trace ∨
      Event.printf .incompressible_data ∈ (main lzo fs1 argv1).trace)
    (hfit : (written (main lzo fs1 argv1).trace).length ≤ IN_LEN)
    (hd : argv1_0 argv2 = 'd')
    (hin2 : fs2.fopen_rb argv2.arg2 = some (written (main lzo fs1 argv1).trace))
    (hout2 : fs2.fopen_wb argv2.arg3 = true) :
    written (main lzo fs2 argv2).trace = B ∧ (main lzo fs2 argv2).exit = 0 := by
  have hinit : lzo.lzo_init = lzo.LZO_E_OK := by
    by_contra hbad
    rw [main_of_init_failure lzo fs1 argv1 hbad] at hverdict
    simp at hverdict
  have htake : B.take IN_LEN = B := List.take_of_length_le hlen
  have hok : (lzo.lzo1x_1_compress B).r = lzo.LZO_E_OK := by
    by_contra hbad
    rw [main_of_c lzo fs1 argv1 hinit hc, main_case_c_open lzo fs1 argv1 B hin1 hout1,
      htake, if_neg hbad] at hverdict
    simp at hverdict
  have hw : written (main lzo fs1 argv1).trace = produced (lzo.lzo1x_1_compress B) := by
    rw [main_of_c lzo fs1 argv1 hinit hc, main_case_c_open lzo fs1 argv1 B hin1 hout1,
      htake, if_pos hok]
    split_ifs <;> simp [written]
  rw [hw] at hfit hin2
  obtain ⟨hdok, hback⟩ := hinv B hlen hok
  rw [main_of_d lzo fs2 argv2 hinit hd, main_case_d_open lzo fs2 argv2 _ hin2 hout2,
    List.take_of_length_le hfit, if_pos hdok]
  simp [written, hback]

/-- C2, amended, at the three-byte source `7 8 9`. -/
theorem round_trip_when_stream_fits_witness :
    written (main lzo_eg (fs_with (written (main lzo_eg (fs_with [7, 8, 9])
      ⟨"c", "B.bin", "B.lzo"⟩).trace)) ⟨"d", "B.lzo", "B.out"⟩).trace = [7, 8, 9] :=
  (round_trip_when_stream_fits lzo_eg (fs_with [7, 8, 9]) (fs_with (written (main lzo_eg (fs_with [7, 8, 9])
      ⟨"c", "B.bin", "B.lzo"⟩).trace)) ⟨"c", "B.bin", "B.lzo"⟩ ⟨"d", "B.lzo", "B.out"⟩
      [7, 8, 9] (by decide) lzo_eg_inverts lzo_eg_obeys_bound (by decide)
      rfl rfl (Or.inl (by decide)) (by decide) (by decide) rfl rfl).1

end MiniLzo
